import Mathlib

/-!
Verification development for the firebase-token-helper CLI (src/index.js).

The program is shallowly embedded: JavaScript strings are `List Char`,
JavaScript `undefined`/missing values are `Option`, JavaScript truthiness
on strings is `truthyS` (a string is truthy iff nonempty).  The cache
layer (`encodeSafe` / `decodeSafe` / `readCache` / `writeCache`,
src/index.js lines 45-80) is embedded with a concrete JSON
serializer/parser over the cache object's fields.  The source wraps the
JSON text in a base64-of-UTF-8 transport (`Buffer.from(...).toString`);
Node's base64 decoder is total (never throws), so decode failure in the
source coincides with `JSON.parse` failure, and the model identifies the
persisted text with the JSON text, eliding the reversible transport.
Platform built-ins (`JSON`, `Buffer`, the admin SDK, `node-fetch`) are
external to the repository: they are modelled at the granularity of the
contract the program relies on, while every line of control flow of
src/index.js itself is translated directly.

Side effects (filesystem probes, prompts, the one network call, console
output, the process exit code) are made explicit as an `Event` trace and
an `Outcome`, produced by `mainRun` over a `World` that fixes the
command-line flags, environment variables, filesystem and network
responses of one run.
-/

namespace FirebaseTokenHelper

/-- JavaScript strings are modelled as lists of characters. -/
abbrev Str := List Char

/-- JavaScript truthiness of a possibly-undefined string: `undefined` and
the empty string are falsy, every other string is truthy. -/
def truthyS : Option Str → Bool
  | none => false
  | some s => !s.isEmpty

/-- JavaScript `a || b` on possibly-undefined strings: `a` when truthy,
otherwise `b` unchanged. -/
def orT (a b : Option Str) : Option Str :=
  if truthyS a then a else b

/-- Whitespace characters recognised by the model of `String.prototype.trim`
(space, tab, newline, carriage return, form feed, vertical tab). -/
def isWsChar (c : Char) : Bool :=
  c = ' ' || c = '\t' || c = '\n' || c = '\x0d' || c = '\x0c' || c = '\x0b'

/-- Model of `String.prototype.trim`: drop whitespace from both ends. -/
def trimWs (s : Str) : Str :=
  ((s.dropWhile isWsChar).reverse.dropWhile isWsChar).reverse

/-- Model of `String.prototype.toLowerCase` (ASCII suffices here). -/
def lowerStr (s : Str) : Str := s.map Char.toLower

/-- The object persisted by the setup cache (src/index.js line 252 builds
it; `writeCache` deletes `idToken` and `refreshToken` from a copy).  Every
field is optional: a `none` field models a key that is absent from the
JavaScript object. -/
structure CacheObj where
  uid : Option Str
  serviceAccount : Option Str
  apiKey : Option Str
  projectId : Option Str
  timestamp : Option Nat
  idToken : Option Str
  refreshToken : Option Str
  customToken : Option Str
deriving DecidableEq, Repr

/-- A primitive JSON value as stored in a cache field: a string or a
natural number (the timestamp). -/
inductive JVal where
  | s (v : Str)
  | n (v : Nat)
deriving DecidableEq, Repr

/-- The decimal digit character for `d < 10`. -/
def digitChar (d : Nat) : Char := Char.ofNat (48 + d)

/-- The numeric value of a decimal digit character. -/
def charVal (c : Char) : Nat := c.toNat - 48

/-- Is `c` a decimal digit? -/
def isDigitChar (c : Char) : Bool := 48 ≤ c.toNat && c.toNat ≤ 57

/-- Fuelled decimal rendering of a natural number (big-endian digits);
fuel is an upper bound making the recursion structural. -/
def natDecGo : Nat → Nat → Str
  | 0, _ => ['0']
  | fuel + 1, n =>
      if n < 10 then [digitChar n]
      else natDecGo fuel (n / 10) ++ [digitChar (n % 10)]

/-- Decimal rendering of a natural number (what `JSON.stringify` emits for
the timestamp). -/
def natDec (n : Nat) : Str := natDecGo n n

/-- JSON string escaping, as far as the cache payload needs it: the quote
and the backslash are escaped; other characters pass through.  (The
source's `JSON.stringify` also escapes control characters; no claim
depends on the textual form of such payloads, and the round-trip property
is unaffected.) -/
def escStr : Str → Str
  | [] => []
  | c :: cs => (if c = '"' || c = '\\' then ['\\', c] else [c]) ++ escStr cs

/-- A JSON string literal: quote, escaped body, quote. -/
def quoteStr (s : Str) : Str := '"' :: (escStr s ++ ['"'])

/-- Serialize one primitive JSON value. -/
def jvalStr : JVal → Str
  | .s v => quoteStr v
  | .n v => natDec v

/-- Serialize one `"key":value` member. -/
def pairOut (kv : Str × JVal) : Str := quoteStr kv.1 ++ ':' :: jvalStr kv.2

/-- Comma-join serialized members. -/
def pairsJoin : List (Str × JVal) → Str
  | [] => []
  | [kv] => pairOut kv
  | kv :: kv2 :: rest => pairOut kv ++ ',' :: pairsJoin (kv2 :: rest)

/-- Prepend a member when the field is present (an absent field emits no
key, exactly as `JSON.stringify` omits absent object keys). -/
def optF (k : Str) (v : Option JVal) (rest : List (Str × JVal)) : List (Str × JVal) :=
  match v with
  | some j => (k, j) :: rest
  | none => rest

def uidKey : Str := "uid".toList
def saKey : Str := "serviceAccount".toList
def keyKey : Str := "apiKey".toList
def pidKey : Str := "projectId".toList
def tsKey : Str := "timestamp".toList
def idTokKey : Str := "idToken".toList
def refTokKey : Str := "refreshToken".toList
def ctKey : Str := "customToken".toList

/-- The members of the serialized cache object, in the key order of the
object literal at src/index.js line 252 (secret token keys last). -/
def toPairs (o : CacheObj) : List (Str × JVal) :=
  optF uidKey (o.uid.map .s)
    (optF saKey (o.serviceAccount.map .s)
      (optF keyKey (o.apiKey.map .s)
        (optF pidKey (o.projectId.map .s)
          (optF tsKey (o.timestamp.map .n)
            (optF idTokKey (o.idToken.map .s)
              (optF refTokKey (o.refreshToken.map .s)
                (optF ctKey (o.customToken.map .s) [])))))))

/-- `encodeSafe` (src/index.js lines 45-48): serialize the cache object to
its JSON text (see the header comment: the reversible base64 transport is
elided). -/
def encodeSafe (o : CacheObj) : Str :=
  '{' :: (pairsJoin (toPairs o) ++ ['}'])

/-- Parse the body of a JSON string literal (after its opening quote):
returns the unescaped content and the input after the closing quote. -/
def parseStrBody : Str → Option (Str × Str)
  | [] => none
  | '"' :: rest => some ([], rest)
  | '\\' :: d :: rest2 =>
      if d = '"' || d = '\\' then
        (parseStrBody rest2).map (fun p => (d :: p.1, p.2))
      else none
  | '\\' :: [] => none
  | c :: rest => (parseStrBody rest).map (fun p => (c :: p.1, p.2))

/-- The value of a big-endian list of digit characters. -/
def digitsVal (l : Str) : Nat := l.foldl (fun a c => a * 10 + charVal c) 0

/-- Parse a decimal number: the maximal digit run, failing on none. -/
def parseNat (s : Str) : Option (Nat × Str) :=
  let ds := s.takeWhile isDigitChar
  if ds.isEmpty then none else some (digitsVal ds, s.dropWhile isDigitChar)

/-- Parse one primitive JSON value (string or number). -/
def parseJVal : Str → Option (JVal × Str)
  | [] => none
  | c :: rest =>
      if c = '"' then (parseStrBody rest).map (fun p => (JVal.s p.1, p.2))
      else if isDigitChar c then
        (parseNat (c :: rest)).map (fun p => (JVal.n p.1, p.2))
      else none

/-- Parse the members of a JSON object, starting right after its `{`;
consumes the closing `}`.  `fuel` bounds the number of members. -/
def parsePairsGo : Nat → Str → Option (List (Str × JVal) × Str)
  | _, [] => none
  | fuel, c :: rest =>
      if c = '}' then some ([], rest)
      else if c = '"' then
        match parseStrBody rest with
        | none => none
        | some (k, r1) =>
            match r1 with
            | ':' :: r2 =>
                match parseJVal r2 with
                | none => none
                | some (v, r3) =>
                    match r3 with
                    | ',' :: r4 =>
                        match fuel with
                        | 0 => none
                        | fuel' + 1 =>
                            match parsePairsGo fuel' r4 with
                            | none => none
                            | some (ps, r5) => some ((k, v) :: ps, r5)
                    | '}' :: r4 => some ([(k, v)], r4)
                    | _ => none
            | _ => none
      else none

/-- Take the member named `k` when it heads the list. -/
def takeField (k : Str) : List (Str × JVal) → Option JVal × List (Str × JVal)
  | [] => (none, [])
  | (k2, v) :: rest => if k2 = k then (some v, rest) else (none, (k2, v) :: rest)

/-- Interpret an optional member as an optional string field. -/
def asStrF : Option JVal → Option (Option Str)
  | none => some none
  | some (.s v) => some (some v)
  | some (.n _) => none

/-- Interpret an optional member as an optional number field. -/
def asNatF : Option JVal → Option (Option Nat)
  | none => some none
  | some (.n v) => some (some v)
  | some (.s _) => none

/-- Rebuild a cache object from parsed members (expected in serialization
key order, no extra members — the parser accepts exactly the image of
`encodeSafe`, a partial inverse of it; everything else decodes to
`none`, which only widens the set of inputs treated as malformed). -/
def fromPairs (l0 : List (Str × JVal)) : Option CacheObj :=
  let p1 := takeField uidKey l0
  let p2 := takeField saKey p1.2
  let p3 := takeField keyKey p2.2
  let p4 := takeField pidKey p3.2
  let p5 := takeField tsKey p4.2
  let p6 := takeField idTokKey p5.2
  let p7 := takeField refTokKey p6.2
  let p8 := takeField ctKey p7.2
  match p8.2 with
  | _ :: _ => none
  | [] =>
      match asStrF p1.1, asStrF p2.1, asStrF p3.1, asStrF p4.1, asNatF p5.1,
            asStrF p6.1, asStrF p7.1, asStrF p8.1 with
      | some u, some sa, some k, some p, some t, some i, some r, some c =>
          some ⟨u, sa, k, p, t, i, r, c⟩
      | _, _, _, _, _, _, _, _ => none

/-- `decodeSafe` (src/index.js lines 50-56): parse the persisted text back
to a cache object, with every failure (the source's `try`/`catch` around
`JSON.parse`) mapped to `none`. -/
def decodeSafe (s : Str) : Option CacheObj :=
  match s with
  | '{' :: rest =>
      match parsePairsGo (rest.length + 1) rest with
      | some (ps, []) => fromPairs ps
      | _ => none
  | _ => none

/-- `readCache` (src/index.js lines 58-67): `none` when the file is
missing; otherwise trim the raw content, treat an empty remainder as
absent, and decode the rest (decoding failure is `none`).  The function
is total: the source's `try`/`catch` (which also swallows read errors)
is the `Option` discipline here. -/
def readCache (file : Option Str) : Option CacheObj :=
  match file with
  | none => none
  | some raw =>
      let t := trimWs raw
      if t.isEmpty then none else decodeSafe t

/-- The two `delete` statements of `writeCache` (src/index.js lines
73-74): the identity token and the refresh token are removed; no other
key — in particular not a custom-token key — is touched. -/
def stripTokens (o : CacheObj) : CacheObj :=
  { o with idToken := none, refreshToken := none }

/-- `writeCache` (src/index.js lines 69-80): copy, delete the two token
keys, encode; returns the content written to the cache file. -/
def writeCache (o : CacheObj) : Str :=
  encodeSafe (stripTokens o)

/-- A generic JSON value, for the body of the exchange endpoint's
response (`res.json()` at src/index.js line 170). -/
inductive Json where
  | null
  | bool (b : Bool)
  | num (n : Nat)
  | str (s : Str)
  | obj (fields : List (Str × Json))
  | arr (elems : List Json)

mutual

/-- Model of `JSON.stringify` on a response body (used when the error
body has no nested message, src/index.js line 172). -/
def jStringify : Json → Str
  | .null => "null".toList
  | .bool true => "true".toList
  | .bool false => "false".toList
  | .num n => natDec n
  | .str s => quoteStr s
  | .obj fs => '{' :: (jStringifyFields fs ++ ['}'])
  | .arr es => '[' :: (jStringifyElems es ++ [']'])

def jStringifyFields : List (Str × Json) → Str
  | [] => []
  | [(k, v)] => quoteStr k ++ ':' :: jStringify v
  | (k, v) :: f :: fs => quoteStr k ++ ':' :: jStringify v ++ ',' :: jStringifyFields (f :: fs)

def jStringifyElems : List Json → Str
  | [] => []
  | [e] => jStringify e
  | e :: e2 :: es => jStringify e ++ ',' :: jStringifyElems (e2 :: es)

end

/-- JavaScript property access `v.k`: `none` is `undefined` (absent key
or non-object receiver). -/
def jGet (v : Json) (k : Str) : Option Json :=
  match v with
  | .obj fs => (fs.find? (fun f => f.1 = k)).map (·.2)
  | _ => none

/-- JavaScript truthiness of a JSON value (objects and arrays are always
truthy, `null` is falsy, numbers and strings by value). -/
def jTruthy : Json → Bool
  | .null => false
  | .bool b => b
  | .num n => n != 0
  | .str s => !s.isEmpty
  | .obj _ => true
  | .arr _ => true

/-- JavaScript truthiness of a possibly-undefined JSON value. -/
def jTruthyO : Option Json → Bool
  | none => false
  | some v => jTruthy v

mutual

/-- Model of JavaScript string coercion, as the template literal at
src/index.js line 173 applies it to the extracted message. -/
def jDisplay : Json → Str
  | .null => "null".toList
  | .bool true => "true".toList
  | .bool false => "false".toList
  | .num n => natDec n
  | .str s => s
  | .obj _ => "[object Object]".toList
  | .arr es => jDisplayElems es

def jDisplayElems : List Json → Str
  | [] => []
  | [e] => jDisplay e
  | e :: e2 :: es => jDisplay e ++ ',' :: jDisplayElems (e2 :: es)

end

/-- The truthy chain `data && data.error && data.error.message`
(src/index.js line 172): `some m` exactly when every link is truthy,
with `m` the nested message value. -/
def errMsgCond (data : Json) : Option Json :=
  if jTruthy data then
    match jGet data ("error".toList) with
    | none => none
    | some e =>
        if jTruthy e then
          match jGet e ("message".toList) with
          | none => none
          | some m => if jTruthy m then some m else none
        else none
  else none

/-- The message picked at src/index.js line 172: the nested
`error.message` when the truthy chain holds, else the stringified body. -/
def extractErrMsg (data : Json) : Str :=
  match errMsgCond data with
  | some m => jDisplay m
  | none => jStringify data

/-- The parse outcome of a candidate service-account file:
`JSON.parse` threw, or it produced an object whose `client_email` /
`private_key` fields are as recorded (a `none` field is an absent key). -/
inductive SAParse where
  | failed
  | ok (client_email : Option Str) (private_key : Option Str)
deriving DecidableEq, Repr

/-- `content.client_email && content.private_key` (src/index.js line
123) on a parse outcome. -/
def saOk : SAParse → Bool
  | .failed => false
  | .ok ce pk => truthyS ce && truthyS pk

/-- Which credential `admin.initializeApp` receives: an explicit
certificate from a file, or the SDK's default-credential mechanism
(src/index.js lines 109, 111, 134). -/
inductive CredKind where
  | cert (path : Str)
  | applicationDefault
deriving DecidableEq, Repr

/-- The options handed to `admin.initializeApp` (credential plus the
optional project id of src/index.js lines 143-145). -/
structure AdminOptions where
  cred : CredKind
  projectId : Option Str
deriving DecidableEq, Repr

/-- The interactive prompts of the run, by site. -/
inductive PromptId where
  | loadCache
  | uidQ
  | apiKeyQ
  | saPathQ
deriving DecidableEq, Repr

/-- One observable side effect of a run.  Filesystem probes carry the
path probed; `netCall` is the single HTTP POST of the exchange (carrying
the key and the token it would send); console lines are recorded by
content or by site. -/
inductive Event where
  | fsExistsCheck (p : Str)
  | fsStat (p : Str)
  | fsReaddir (p : Str)
  | fsRead (p : Str)
  | netCall (apiKey : Str) (tokenSent : Str)
  | adminInit (cred : CredKind)
  | prompted (q : PromptId)
  | logLoadedCache
  | logAutoDetected (p : Str)
  | logCustomToken (t : Str)
  | logExchangeResult (s : Str)
  | cacheWrite (content : Str)
  | errNoUid
  | errInitAdmin (msg : Str)
  | errRun (msg : Str)
deriving DecidableEq, Repr

/-- The result of a run: the process exit code (0 on the success path)
and the ordered trace of observable effects. -/
structure Outcome where
  exit : Nat
  events : List Event
deriving DecidableEq, Repr

/-- Everything one invocation depends on: parsed flags (yargs),
environment variables, the working directory, the cache file's content
(`none` = missing), the `.firebase` listing (`none` = the directory is
missing or not a directory; otherwise the file names in listing order),
file existence, the parse outcome of any service-account file, the
queued interactive answers, the admin SDK's minting outcome, and the
exchange endpoint's response. -/
structure World where
  argvUid : Option Str
  argvServiceAccount : Option Str
  argvApiKey : Option Str
  argvProjectId : Option Str
  envGAC : Option Str
  envApiKey : Option Str
  envProjectId : Option Str
  cwd : Str
  now : Nat
  cacheFile : Option Str
  firebaseDir : Option (List Str)
  pathExists : Str → Bool
  saFileAt : Str → SAParse
  promptAnswers : List Str
  mintResult : Except Str Str
  netOk : Bool
  netBody : Json

/-- Simplified `path.resolve(cwd, p)`: absolute paths pass through,
relative ones are joined to the working directory. -/
def resolvePath (cwd p : Str) : Str :=
  if p.head? = some '/' then p else cwd ++ '/' :: p

/-- `path.join(dir, f)`. -/
def pathJoin (d f : Str) : Str := d ++ '/' :: f

/-- The conventional auto-detection directory
`path.resolve(process.cwd(), ".firebase")`. -/
def fbDir (w : World) : Str := resolvePath w.cwd (".firebase".toList)

/-- Does a file name carry the `.json` suffix (src/index.js line 116)? -/
def jsonSuffix (nm : Str) : Bool := ".json".toList.isSuffixOf nm

/-- The error thrown at src/index.js line 107 — it names the resolved
missing path. -/
def notFoundMsg (full : Str) : Str :=
  "Service account file not found: ".toList ++ full

/-- Model of the error `require` raises on an unparsable JSON file
(src/index.js lines 108 and 133; the exact platform text is opaque, the
path identifies the site). -/
def requireFailMsg (full : Str) : Str :=
  "Cannot parse service account JSON: ".toList ++ full

/-- The error thrown at src/index.js line 155 when no API key is
available. -/
def needKeyMsg : Str :=
  "Need Firebase Web API key to exchange custom token for ID token (FIREBASE_API_KEY or --apiKey)".toList

/-- The error thrown at src/index.js line 136 (scan found no match). -/
def noSAFoundMsg : Str :=
  "No service account found. Place a service account JSON in .firebase/ or pass --serviceAccount or set GOOGLE_APPLICATION_CREDENTIALS env var.".toList

/-- The error thrown at src/index.js line 139 (no `.firebase` directory). -/
def noSAProvidedMsg : Str :=
  "No service account provided. Pass --serviceAccount or set GOOGLE_APPLICATION_CREDENTIALS env var, or put a service account JSON into .firebase/".toList

/-- The prefix of the error thrown at src/index.js line 173. -/
def exchangeFailMsg (m : Str) : Str :=
  "Failed to exchange custom token: ".toList ++ m

/-- The candidate loop of the `.firebase` scan (src/index.js lines
118-130 and, duplicated, 219-225): over the `.json`-named entries in
listing order, read and parse each file, skipping parse failures and
files lacking a truthy `client_email` or `private_key`; stop at the
first match.  Returns the picked full path and the reads performed. -/
def pickLoop (w : World) (dir : Str) : List Str → Option Str × List Event
  | [] => (none, [])
  | nm :: rest =>
      let full := pathJoin dir nm
      if saOk (w.saFileAt full) then (some full, [Event.fsRead full])
      else
        let r := pickLoop w dir rest
        (r.1, Event.fsRead full :: r.2)

/-- `initAdmin` (src/index.js lines 100-148).  The process-wide
`admin.apps` re-initialization guard is vacuous in the single run
modelled here.  Branches, in source order: a truthy explicit path is
resolved, checked for existence and loaded (`require`), a missing file
or unparsable JSON throwing; else a truthy `GOOGLE_APPLICATION_CREDENTIALS`
delegates to `admin.credential.applicationDefault()` with no filesystem
access; else the `.firebase` scan picks a candidate or throws.  Returns
the thrown message or the options passed to `admin.initializeApp`,
together with the effect trace. -/
def initAdmin (w : World) (saPath pidFlag : Option Str) : Except Str AdminOptions × List Event :=
  let pid := orT pidFlag w.envProjectId
  if truthyS saPath then
    let full := resolvePath w.cwd (saPath.getD [])
    if w.pathExists full then
      match w.saFileAt full with
      | .failed => (.error (requireFailMsg full), [Event.fsExistsCheck full, Event.fsRead full])
      | .ok _ _ =>
          (.ok ⟨.cert full, pid⟩,
           [Event.fsExistsCheck full, Event.fsRead full, Event.adminInit (.cert full)])
    else (.error (notFoundMsg full), [Event.fsExistsCheck full])
  else if truthyS w.envGAC then
    (.ok ⟨.applicationDefault, pid⟩, [Event.adminInit .applicationDefault])
  else
    match w.firebaseDir with
    | some names =>
        let dir := fbDir w
        let evs0 := [Event.fsExistsCheck dir, Event.fsStat dir, Event.fsReaddir dir]
        let r := pickLoop w dir (names.filter jsonSuffix)
        match r.1 with
        | some full =>
            match w.saFileAt full with
            | .failed => (.error (requireFailMsg full), evs0 ++ r.2 ++ [Event.fsRead full])
            | .ok _ _ =>
                (.ok ⟨.cert full, pid⟩,
                 evs0 ++ r.2 ++ [Event.fsRead full, Event.adminInit (.cert full)])
        | none => (.error noSAFoundMsg, evs0 ++ r.2)
    | none => (.error noSAProvidedMsg, [Event.fsExistsCheck (fbDir w)])

/-- `exchangeCustomTokenForIdToken` (src/index.js lines 154-176): a
falsy API key throws before any request is built or sent (the returned
trace is empty); otherwise the one POST happens, a non-ok status throws
the prefixed extracted message, an ok status returns the parsed body. -/
def exchangeFn (w : World) (customToken : Str) (apiKey : Option Str) : Except Str Json × List Event :=
  if truthyS apiKey then
    let evs := [Event.netCall (apiKey.getD []) customToken]
    if w.netOk then (.ok w.netBody, evs)
    else (.error (exchangeFailMsg (extractErrMsg w.netBody)), evs)
  else (.error needKeyMsg, [])

/-- One queued interactive answer, trimmed as `prompt` trims it
(src/index.js line 90); an exhausted queue answers the empty string. -/
def takeAns : List Str → Str × List Str
  | [] => ([], [])
  | a :: rest => (trimWs a, rest)

/-- `argv.uid || argv.serviceAccount || argv.apiKey || argv.projectId`
(src/index.js line 187): was any of the four flags given (truthily)? -/
def anyFlagB (w : World) : Bool :=
  truthyS w.argvUid || truthyS w.argvServiceAccount ||
    truthyS w.argvApiKey || truthyS w.argvProjectId

/-- Is the answer to the load-cache offer affirmative (src/index.js line
190)? -/
def isYes (a : Str) : Bool :=
  lowerStr a = "y".toList || lowerStr a = "yes".toList

/-- The cache-offer step (src/index.js lines 184-198): when a cache
decoded and no flag at all was given, offer to load it; on a yes answer
each still-falsy parameter is filled from the cache.  Returns the four
parameters, the remaining answers and the trace. -/
def cachePhase (w : World) (uid0 sa0 key0 pid0 : Option Str) (ans : List Str) :
    (Option Str × Option Str × Option Str × Option Str) × List Str × List Event :=
  match readCache w.cacheFile with
  | none => ((uid0, sa0, key0, pid0), ans, [])
  | some c =>
      if anyFlagB w then ((uid0, sa0, key0, pid0), ans, [])
      else
        let t := takeAns ans
        if isYes t.1 then
          ((orT uid0 c.uid, orT sa0 c.serviceAccount, orT key0 c.apiKey, orT pid0 c.projectId),
           t.2, [Event.prompted .loadCache, Event.logLoadedCache])
        else ((uid0, sa0, key0, pid0), t.2, [Event.prompted .loadCache])

/-- The service-account auto-detect step of `main` (src/index.js lines
214-233), reached only with a falsy service account: scan `.firebase`
like `initAdmin` does; on a match take it (logging it), else prompt for
a path, keeping the old falsy value when the answer is empty. -/
def saPhase (w : World) (sa1 : Option Str) (ans : List Str) :
    Option Str × List Str × List Event :=
  if truthyS sa1 then (sa1, ans, [])
  else
    match w.firebaseDir with
    | some names =>
        let dir := fbDir w
        let evs0 := [Event.fsExistsCheck dir, Event.fsStat dir, Event.fsReaddir dir]
        let r := pickLoop w dir (names.filter jsonSuffix)
        match r.1 with
        | some full => (some full, ans, evs0 ++ r.2 ++ [Event.logAutoDetected full])
        | none =>
            let t := takeAns ans
            (if t.1.isEmpty then sa1 else some t.1, t.2,
             evs0 ++ r.2 ++ [Event.prompted .saPathQ])
    | none =>
        let t := takeAns ans
        (if t.1.isEmpty then sa1 else some t.1, t.2,
         [Event.fsExistsCheck (fbDir w), Event.prompted .saPathQ])

/-- The outcome of parameter resolution: an early exit (no identifier,
src/index.js lines 200-206), or the resolved identifier, service-account
path, API key and project-id flag, with the trace so far. -/
inductive Phase1 where
  | abort (o : Outcome)
  | go (uid : Str) (sa : Option Str) (key : Option Str) (pid : Option Str) (evs : List Event)

/-- The parameter-resolution prefix of `main` (src/index.js lines
178-234): seed from flags and environment (`||` per JavaScript
truthiness), run the cache offer, prompt for a missing identifier
(aborting with exit code 1 when it stays empty), prompt for a missing
API key (kept falsy on an empty answer), then auto-detect or prompt for
a missing service account. -/
def resolveParams (w : World) : Phase1 :=
  let uid0 := w.argvUid
  let sa0 := orT w.argvServiceAccount w.envGAC
  let key0 := orT w.argvApiKey w.envApiKey
  let pid0 := w.argvProjectId
  let cp := cachePhase w uid0 sa0 key0 pid0 w.promptAnswers
  let uid1 := cp.1.1
  let sa1 := cp.1.2.1
  let key1 := cp.1.2.2.1
  let pid1 := cp.1.2.2.2
  let ans1 := cp.2.1
  let evs1 := cp.2.2
  let up : Option Str × List Str × List Event :=
    if truthyS uid1 then (uid1, ans1, [])
    else
      let t := takeAns ans1
      (some t.1, t.2, [Event.prompted .uidQ])
  match up.1 with
  | none => Phase1.abort ⟨1, evs1 ++ up.2.2 ++ [Event.errNoUid]⟩
  | some u =>
      if u.isEmpty then Phase1.abort ⟨1, evs1 ++ up.2.2 ++ [Event.errNoUid]⟩
      else
        let kp : Option Str × List Str × List Event :=
          if truthyS key1 then (key1, up.2.1, [])
          else
            let t := takeAns up.2.1
            (if t.1.isEmpty then key1 else some t.1, t.2, [Event.prompted .apiKeyQ])
        let sp := saPhase w sa1 kp.2.1
        Phase1.go u sp.1 kp.1 pid1 (evs1 ++ up.2.2 ++ kp.2.2 ++ sp.2.2)

/-- The tail of `main` after parameter resolution (src/index.js lines
236-257): initialize the admin SDK (exit 2 on failure), mint the custom
token, print it, exchange it, print the result and persist the setup
(exit 3 when minting or the exchange throws; the object written never
contains a token key). -/
def runPhase (w : World) (uid : Str) (sa key pid : Option Str) (evs : List Event) : Outcome :=
  match (initAdmin w sa pid).1 with
  | .error m => ⟨2, evs ++ (initAdmin w sa pid).2 ++ [Event.errInitAdmin m]⟩
  | .ok _ =>
      match w.mintResult with
      | .error m => ⟨3, evs ++ (initAdmin w sa pid).2 ++ [Event.errRun m]⟩
      | .ok tok =>
          match (exchangeFn w tok key).1 with
          | .error m =>
              ⟨3, evs ++ (initAdmin w sa pid).2 ++
                  Event.logCustomToken tok :: (exchangeFn w tok key).2 ++ [Event.errRun m]⟩
          | .ok data =>
              ⟨0, evs ++ (initAdmin w sa pid).2 ++
                  Event.logCustomToken tok :: (exchangeFn w tok key).2 ++
                  [Event.logExchangeResult (jStringify data),
                   Event.cacheWrite (writeCache
                     ⟨some uid, sa, key, orT pid w.envProjectId, some w.now,
                      none, none, none⟩)]⟩

/-- `main` (src/index.js lines 178-258): resolve parameters, then run. -/
def mainRun (w : World) : Outcome :=
  match resolveParams w with
  | .abort o => o
  | .go uid sa key pid evs => runPhase w uid sa key pid evs

/-- Does the residual input not start with a digit (so a decimal parse
stops exactly here)? -/
def nonDigitHead : Str → Bool
  | [] => true
  | c :: _ => !isDigitChar c

/-- Events that are neither the network call nor an admin-SDK
initialization: everything parameter resolution can emit. -/
def cleanEv : Event → Bool
  | .netCall _ _ => false
  | .adminInit _ => false
  | _ => true

/-- Is the event the network call? -/
def isNetEv : Event → Bool
  | .netCall _ _ => true
  | _ => false

/-- Events the post-cache part of parameter resolution can emit
(filesystem probes, the auto-detect log line, the three non-cache
prompts) — notably not the cache-offer prompt, not the network call and
not an admin-SDK initialization. -/
def lateEv : Event → Bool
  | .fsExistsCheck _ => true
  | .fsStat _ => true
  | .fsReaddir _ => true
  | .fsRead _ => true
  | .logAutoDetected _ => true
  | .prompted .uidQ => true
  | .prompted .apiKeyQ => true
  | .prompted .saPathQ => true
  | _ => false

/-- The HTTP 400 body of the exchange endpoint in the scenario of the
spec's property 7. -/
def invBody : Json :=
  .obj [("error".toList, .obj [("message".toList, .str "INVALID_CUSTOM_TOKEN".toList)])]

/-- A baseline world for concrete runs: every flag given truthily, an
existing parsable service-account file, a mintable token, a succeeding
exchange, no cache file and no queued answers. -/
def baseWorld : World where
  argvUid := some ("u1".toList)
  argvServiceAccount := some ("/sa/acct.json".toList)
  argvApiKey := some ("key1".toList)
  argvProjectId := none
  envGAC := none
  envApiKey := none
  envProjectId := none
  cwd := "/work".toList
  now := 1700000000000
  cacheFile := none
  firebaseDir := none
  pathExists := fun _ => true
  saFileAt := fun _ => .ok (some ("a@b".toList)) (some ("pk".toList))
  promptAnswers := []
  mintResult := .ok ("tok1".toList)
  netOk := true
  netBody := .obj [("idToken".toList, .str "jwt".toList)]

/-- C1's concrete input: an object whose only field is a custom token. -/
def cexC1 : CacheObj := ⟨none, none, none, none, none, none, none, some ("ct1".toList)⟩

/-- C2's concrete world: the exchange endpoint answers non-ok with the
nested INVALID_CUSTOM_TOKEN body. -/
def wC2 : World := { baseWorld with netOk := false, netBody := invBody }

/-- C3's concrete world: no service-account flag, but the credential
environment variable names a path (which exists and parses). -/
def wC3 : World := { baseWorld with
  argvServiceAccount := none
  envGAC := some ("/env/cred.json".toList) }

/-- C4's witness world (the exchange is never reached with a key). -/
def wC4 : World := baseWorld

/-- C5's `.firebase` listing: a non-`.json` file that would match is
listed first, then an unparsable candidate, then one lacking the email
field, then the first real match, then a later match. -/
def c5names : List Str :=
  ["good.txt".toList, "bad.json".toList, "noemail.json".toList,
   "pick.json".toList, "later.json".toList]

/-- C5's concrete world: auto-detection must skip `good.txt` (wrong
suffix), `bad.json` (parse failure) and `noemail.json` (missing field)
and pick `pick.json`. -/
def wC5 : World := { baseWorld with
  argvServiceAccount := none
  envGAC := none
  firebaseDir := some c5names
  saFileAt := fun p =>
    if p = "/work/.firebase/bad.json".toList then .failed
    else if p = "/work/.firebase/noemail.json".toList then .ok none (some ("pk".toList))
    else .ok (some ("a@b".toList)) (some ("pk".toList)) }

/-- C6's counterexample world: a missing explicit service-account path,
but no identifier at all (flag absent, prompt answered empty). -/
def wC6 : World := { baseWorld with
  argvUid := none
  argvServiceAccount := some ("./missing.json".toList)
  pathExists := fun _ => false
  promptAnswers := ["".toList] }

/-- C6's witness world: a missing explicit service-account path with the
identifier supplied by flag. -/
def wC6b : World := { baseWorld with
  argvServiceAccount := some ("./missing.json".toList)
  pathExists := fun _ => false }

/-- C8's witness world: flags given, with a decodable cache file on disk
holding different values. -/
def wC8 : World := { baseWorld with
  cacheFile := some (encodeSafe
    ⟨some ("cachedU".toList), some ("/c/sa.json".toList), some ("cachedK".toList),
     none, some 5, none, none, none⟩) }

/-- C9's witness world: minting succeeds, the exchange fails (non-ok
response). -/
def wC9 : World := { baseWorld with netOk := false, netBody := .str ("boom".toList) }

section CacheLemmas

/-- Unescaping inverts escaping: parsing a string body over the escaped
text recovers the original characters and stops at the closing quote. -/
theorem parseStrBody_escStr (s rest : Str) :
    parseStrBody (escStr s ++ '"' :: rest) = some (s, rest) := by
  induction s with
  | nil => rfl
  | cons c cs ih =>
      by_cases hq : c = '"'
      · subst hq
        simp [escStr, parseStrBody, ih]
      · by_cases hb : c = '\\'
        · subst hb
          simp [escStr, parseStrBody, ih]
        · simp [escStr, hq, hb, parseStrBody, ih]

theorem charVal_digitChar {d : Nat} (h : d < 10) : charVal (digitChar d) = d := by
  interval_cases d <;> decide

theorem isDigitChar_digitChar {d : Nat} (h : d < 10) : isDigitChar (digitChar d) = true := by
  interval_cases d <;> decide

theorem digitsVal_append (l : Str) (c : Char) :
    digitsVal (l ++ [c]) = digitsVal l * 10 + charVal c := by
  simp [digitsVal, List.foldl_append]

theorem natDecGo_lt (f n : Nat) (h : n < 10) : natDecGo (f + 1) n = [digitChar n] := by
  simp [natDecGo, h]

theorem natDecGo_ge (f n : Nat) (h : ¬ n < 10) :
    natDecGo (f + 1) n = natDecGo f (n / 10) ++ [digitChar (n % 10)] := by
  simp [natDecGo, h]

/-- The fuelled decimal renderer is correct once the fuel covers the
number: nonempty output, digits only, decoding to the number itself. -/
theorem natDecGo_spec : ∀ fuel n, n ≤ fuel →
    natDecGo fuel n ≠ [] ∧ (∀ c ∈ natDecGo fuel n, isDigitChar c = true) ∧
      digitsVal (natDecGo fuel n) = n := by
  intro fuel
  induction fuel with
  | zero =>
      intro n hn
      have : n = 0 := Nat.le_zero.mp hn
      subst this
      refine ⟨by simp [natDecGo], ?_, by decide⟩
      intro c hc
      simp [natDecGo] at hc
      subst hc; decide
  | succ f ih =>
      intro n hn
      by_cases h10 : n < 10
      · rw [natDecGo_lt f n h10]
        refine ⟨by simp, ?_, ?_⟩
        · intro c hc
          simp at hc
          subst hc; exact isDigitChar_digitChar h10
        · simp [digitsVal, charVal_digitChar h10]
      · have hdiv : n / 10 ≤ f := by omega
        obtain ⟨hne, hdig, hval⟩ := ih (n / 10) hdiv
        rw [natDecGo_ge f n h10]
        refine ⟨by simp, ?_, ?_⟩
        · intro c hc
          rcases List.mem_append.mp hc with h | h
          · exact hdig c h
          · simp at h; subst h
            exact isDigitChar_digitChar (Nat.mod_lt _ (by omega))
        · rw [digitsVal_append, hval, charVal_digitChar (Nat.mod_lt _ (by omega))]
          omega

theorem natDec_spec (n : Nat) :
    natDec n ≠ [] ∧ (∀ c ∈ natDec n, isDigitChar c = true) ∧ digitsVal (natDec n) = n :=
  natDecGo_spec n n (Nat.le_refl n)

theorem takeWhile_append_all {p : Char → Bool} (xs ys : Str)
    (h : ∀ c ∈ xs, p c = true) :
    List.takeWhile p (xs ++ ys) = xs ++ List.takeWhile p ys := by
  induction xs with
  | nil => simp
  | cons x l ih =>
      have hx := h x (by simp)
      simp [List.takeWhile_cons, hx, ih fun c hc => h c (by simp [hc])]

theorem dropWhile_append_all {p : Char → Bool} (xs ys : Str)
    (h : ∀ c ∈ xs, p c = true) :
    List.dropWhile p (xs ++ ys) = List.dropWhile p ys := by
  induction xs with
  | nil => simp
  | cons x l ih =>
      have hx := h x (by simp)
      simp [List.dropWhile_cons, hx, ih fun c hc => h c (by simp [hc])]

/-- A decimal rendering followed by a non-digit parses back to the
number, consuming exactly the rendering. -/
theorem parseNat_natDec (n : Nat) (rest : Str) (h : nonDigitHead rest = true) :
    parseNat (natDec n ++ rest) = some (n, rest) := by
  obtain ⟨hne, hdig, hval⟩ := natDec_spec n
  have htw : List.takeWhile isDigitChar rest = [] := by
    cases rest with
    | nil => rfl
    | cons c l =>
        simp [nonDigitHead] at h
        simp [List.takeWhile_cons, h]
  have hdw : List.dropWhile isDigitChar rest = rest := by
    cases rest with
    | nil => rfl
    | cons c l =>
        simp [nonDigitHead] at h
        simp [List.dropWhile_cons, h]
  simp [parseNat, takeWhile_append_all _ _ hdig, dropWhile_append_all _ _ hdig,
    htw, hdw, hne, hval, List.isEmpty_iff]

theorem isDigitChar_ne_quote {c : Char} (h : isDigitChar c = true) : ¬ c = '"' := by
  intro he; subst he; simp [isDigitChar] at h

/-- A serialized primitive value followed by a non-digit parses back to
itself. -/
theorem parseJVal_jvalStr (v : JVal) (rest : Str) (h : nonDigitHead rest = true) :
    parseJVal (jvalStr v ++ rest) = some (v, rest) := by
  cases v with
  | s str =>
      simp only [jvalStr, quoteStr, List.cons_append, List.append_assoc]
      simp [parseJVal, parseStrBody_escStr]
  | n num =>
      obtain ⟨hne, hdig, _⟩ := natDec_spec num
      obtain ⟨c, l, hcl⟩ := List.exists_cons_of_ne_nil hne
      have hc : isDigitChar c = true := hdig c (by rw [hcl]; simp)
      have hq : ¬ c = '"' := isDigitChar_ne_quote hc
      have : parseNat ((c :: l) ++ rest) = some (num, rest) := by
        rw [← hcl]; exact parseNat_natDec num rest h
      simp only [List.cons_append] at this
      simp [jvalStr, hcl, parseJVal, hq, hc, this]

theorem nonDigitHead_close (rest : Str) : nonDigitHead ('}' :: rest) = true := by
  simp [nonDigitHead]; decide

theorem nonDigitHead_comma (rest : Str) : nonDigitHead (',' :: rest) = true := by
  simp [nonDigitHead]; decide

/-- The member parser inverts the member serializer whenever the fuel
covers the member count. -/
theorem parsePairsGo_pairsJoin : ∀ (ps : List (Str × JVal)) (fuel : Nat) (rest : Str),
    ps.length ≤ fuel →
    parsePairsGo fuel (pairsJoin ps ++ '}' :: rest) = some (ps, rest) := by
  intro ps
  induction ps with
  | nil =>
      intro fuel rest _
      cases fuel <;> simp [pairsJoin, parsePairsGo]
  | cons kv tail ih =>
      intro fuel rest hfuel
      obtain ⟨k, v⟩ := kv
      cases tail with
      | nil =>
          have hbody : parseStrBody (escStr k ++ '"' :: (':' :: (jvalStr v ++ '}' :: rest)))
              = some (k, ':' :: (jvalStr v ++ '}' :: rest)) := parseStrBody_escStr _ _
          have hval : parseJVal (jvalStr v ++ '}' :: rest) = some (v, '}' :: rest) :=
            parseJVal_jvalStr v _ (nonDigitHead_close rest)
          cases fuel with
          | zero => simp at hfuel
          | succ f =>
              simp only [pairsJoin, pairOut, quoteStr, List.cons_append, List.append_assoc,
                List.nil_append]
              simp [parsePairsGo, hbody, hval]
      | cons kv2 t2 =>
          have hbody : parseStrBody
                (escStr k ++ '"' :: (':' :: (jvalStr v ++ ',' :: (pairsJoin (kv2 :: t2) ++ '}' :: rest))))
              = some (k, ':' :: (jvalStr v ++ ',' :: (pairsJoin (kv2 :: t2) ++ '}' :: rest))) :=
            parseStrBody_escStr _ _
          have hval : parseJVal (jvalStr v ++ ',' :: (pairsJoin (kv2 :: t2) ++ '}' :: rest))
              = some (v, ',' :: (pairsJoin (kv2 :: t2) ++ '}' :: rest)) :=
            parseJVal_jvalStr v _ (nonDigitHead_comma _)
          cases fuel with
          | zero => simp at hfuel
          | succ f =>
              have hrec := ih f rest (by simp at hfuel ⊢; omega)
              simp only [pairsJoin, pairOut, quoteStr, List.cons_append, List.append_assoc,
                List.nil_append]
              simp [parsePairsGo, hbody, hval, hrec]

/-- Rebuilding from the serialized members recovers the object. -/
theorem fromPairs_toPairs (o : CacheObj) : fromPairs (toPairs o) = some o := by
  obtain ⟨u, sa, k, p, t, i, r, c⟩ := o
  cases u <;> cases sa <;> cases k <;> cases p <;> cases t <;> cases i <;> cases r <;>
    cases c <;> rfl

theorem pairOut_ne_nil (kv : Str × JVal) : pairOut kv ≠ [] := by
  obtain ⟨k, v⟩ := kv
  simp [pairOut, quoteStr]

theorem length_le_pairsJoin : ∀ ps : List (Str × JVal), ps.length ≤ (pairsJoin ps).length := by
  intro ps
  induction ps with
  | nil => simp [pairsJoin]
  | cons kv tail ih =>
      cases tail with
      | nil =>
          have := pairOut_ne_nil kv
          have : 0 < (pairOut kv).length := List.length_pos.mpr this
          simp [pairsJoin]; omega
      | cons kv2 t2 =>
          have h1 : 0 < (pairOut kv).length := List.length_pos.mpr (pairOut_ne_nil kv)
          simp only [pairsJoin, List.length_cons, List.length_append] at ih ⊢
          omega

/-- Decoding inverts encoding on every cache object. -/
theorem decodeSafe_encodeSafe (o : CacheObj) : decodeSafe (encodeSafe o) = some o := by
  have hfuel : (toPairs o).length ≤ (pairsJoin (toPairs o) ++ ['}']).length + 1 := by
    have := length_le_pairsJoin (toPairs o)
    simp [List.length_append]; omega
  have hparse := parsePairsGo_pairsJoin (toPairs o)
      ((pairsJoin (toPairs o) ++ ['}']).length + 1) [] hfuel
  simp only [decodeSafe, encodeSafe]
  rw [hparse]
  exact fromPairs_toPairs o

theorem trimWs_keep (a b : Char) (l : Str) (ha : isWsChar a = false)
    (hb : isWsChar b = false) : trimWs (a :: (l ++ [b])) = a :: (l ++ [b]) := by
  simp only [trimWs, List.dropWhile_cons, ha, Bool.false_eq_true, if_false,
    List.reverse_cons, List.reverse_append, List.reverse_cons, List.reverse_nil,
    List.nil_append, List.cons_append, List.dropWhile_cons, hb]
  simp

/-- The persisted text, read back through `readCache`, yields exactly the
object that was encoded. -/
theorem readCache_encodeSafe (o : CacheObj) :
    readCache (some (encodeSafe o)) = some o := by
  have htrim : trimWs (encodeSafe o) = encodeSafe o := by
    simpa [encodeSafe] using trimWs_keep '{' '}' (pairsJoin (toPairs o)) (by decide) (by decide)
  have hne : (encodeSafe o).isEmpty = false := by simp [encodeSafe]
  simp [readCache, htrim, hne, decodeSafe_encodeSafe o]

end CacheLemmas

section ProgramLemmas

theorem orT_truthy {a b : Option Str} (h : truthyS a = true) : orT a b = a := by
  simp [orT, h]

theorem orT_falsy {a b : Option Str} (h : truthyS a = false) : orT a b = b := by
  simp [orT, h]

theorem truthyS_orT (a b : Option Str) :
    truthyS (orT a b) = (truthyS a || truthyS b) := by
  by_cases h : truthyS a = true
  · simp [orT, h]
  · simp at h
    simp [orT, h]

/-- With any flag given, the cache step neither consults the cache for
values nor prompts. -/
theorem cachePhase_anyFlag (w : World) (u0 s0 k0 p0 : Option Str) (a : List Str)
    (h : anyFlagB w = true) :
    cachePhase w u0 s0 k0 p0 a = ((u0, s0, k0, p0), a, []) := by
  unfold cachePhase
  cases readCache w.cacheFile <;> simp [h]

theorem cachePhase_uid (w : World) (u0 s0 k0 p0 : Option Str) (a : List Str)
    (h : truthyS u0 = true) :
    (cachePhase w u0 s0 k0 p0 a).1.1 = u0 := by
  unfold cachePhase
  cases readCache w.cacheFile with
  | none => rfl
  | some c =>
      by_cases hf : anyFlagB w
      · simp [hf]
      · by_cases hy : isYes (takeAns a).1 <;> simp [hf, hy, orT_truthy h]

theorem cachePhase_sa (w : World) (u0 s0 k0 p0 : Option Str) (a : List Str)
    (h : truthyS s0 = true) :
    (cachePhase w u0 s0 k0 p0 a).1.2.1 = s0 := by
  unfold cachePhase
  cases readCache w.cacheFile with
  | none => rfl
  | some c =>
      by_cases hf : anyFlagB w
      · simp [hf]
      · by_cases hy : isYes (takeAns a).1 <;> simp [hf, hy, orT_truthy h]

theorem cachePhase_key (w : World) (u0 s0 k0 p0 : Option Str) (a : List Str)
    (h : truthyS k0 = true) :
    (cachePhase w u0 s0 k0 p0 a).1.2.2.1 = k0 := by
  unfold cachePhase
  cases readCache w.cacheFile with
  | none => rfl
  | some c =>
      by_cases hf : anyFlagB w
      · simp [hf]
      · by_cases hy : isYes (takeAns a).1 <;> simp [hf, hy, orT_truthy h]

theorem cachePhase_pid (w : World) (u0 s0 k0 p0 : Option Str) (a : List Str)
    (h : truthyS p0 = true) :
    (cachePhase w u0 s0 k0 p0 a).1.2.2.2 = p0 := by
  unfold cachePhase
  cases readCache w.cacheFile with
  | none => rfl
  | some c =>
      by_cases hf : anyFlagB w
      · simp [hf]
      · by_cases hy : isYes (takeAns a).1 <;> simp [hf, hy, orT_truthy h]

theorem cachePhase_clean (w : World) (u0 s0 k0 p0 : Option Str) (a : List Str) :
    ((cachePhase w u0 s0 k0 p0 a).2.2).all cleanEv = true := by
  unfold cachePhase
  cases readCache w.cacheFile with
  | none => rfl
  | some c =>
      by_cases hf : anyFlagB w
      · simp [hf]
      · by_cases hy : isYes (takeAns a).1 <;> simp [hf, hy, cleanEv]

theorem pickLoop_clean (w : World) (dir : Str) :
    ∀ names, ((pickLoop w dir names).2).all cleanEv = true := by
  intro names
  induction names with
  | nil => simp [pickLoop]
  | cons nm rest ih =>
      by_cases h : saOk (w.saFileAt (pathJoin dir nm)) = true
      · simp [pickLoop, h, cleanEv]
      · simp [pickLoop, h, cleanEv, ih]

theorem saPhase_truthy (w : World) (sa1 : Option Str) (ans : List Str)
    (h : truthyS sa1 = true) : saPhase w sa1 ans = (sa1, ans, []) := by
  simp [saPhase, h]

theorem saPhase_clean (w : World) (sa1 : Option Str) (ans : List Str) :
    ((saPhase w sa1 ans).2.2).all cleanEv = true := by
  by_cases h : truthyS sa1 = true
  · simp [saPhase, h]
  · cases hfd : w.firebaseDir with
    | none => simp [saPhase, h, hfd, cleanEv]
    | some names =>
        have hp := pickLoop_clean w (fbDir w) (names.filter jsonSuffix)
        cases hr : (pickLoop w (fbDir w) (names.filter jsonSuffix)).1 with
        | none => simp [saPhase, h, hfd, hr, cleanEv, hp]
        | some full => simp [saPhase, h, hfd, hr, cleanEv, hp]

/-- With a truthy `--uid` flag, the resolved identifier is that flag. -/
theorem resolveParams_go_uid (w : World) (u : Str) (sa key pid : Option Str)
    (evs : List Event) (hu : truthyS w.argvUid = true)
    (hgo : resolveParams w = Phase1.go u sa key pid evs) : u = w.argvUid.getD [] := by
  have hany : anyFlagB w = true := by simp [anyFlagB, hu]
  simp only [resolveParams] at hgo
  rw [cachePhase_anyFlag w _ _ _ _ _ hany] at hgo
  cases hau : w.argvUid with
  | none => rw [hau] at hu; simp [truthyS] at hu
  | some s =>
      rw [hau] at hgo hu
      have hne : s.isEmpty = false := by
        simpa [truthyS] using hu
      simp only [truthyS, hne, Bool.not_false, if_true] at hgo
      simp only [hne, Bool.false_eq_true, if_false] at hgo
      cases hgo
      simp

theorem pickLoop_late (w : World) (dir : Str) :
    ∀ names, ((pickLoop w dir names).2).all lateEv = true := by
  intro names
  induction names with
  | nil => simp [pickLoop]
  | cons nm rest ih =>
      by_cases h : saOk (w.saFileAt (pathJoin dir nm)) = true
      · simp [pickLoop, h, lateEv]
      · simp [pickLoop, h, lateEv, ih]

theorem saPhase_late (w : World) (sa1 : Option Str) (ans : List Str) :
    ((saPhase w sa1 ans).2.2).all lateEv = true := by
  by_cases h : truthyS sa1 = true
  · simp [saPhase, h]
  · cases hfd : w.firebaseDir with
    | none => simp [saPhase, h, hfd, lateEv]
    | some names =>
        have hp := pickLoop_late w (fbDir w) (names.filter jsonSuffix)
        cases hr : (pickLoop w (fbDir w) (names.filter jsonSuffix)).1 with
        | none => simp [saPhase, h, hfd, hr, lateEv, hp]
        | some full => simp [saPhase, h, hfd, hr, lateEv, hp]

/-- What a `.go` outcome of parameter resolution looks like: the cache
step ran first, the project id is its fourth component untouched, a
truthy post-cache service account / API key / identifier survives to the
result, and the trace is the cache step's trace followed only by
post-cache events. -/
theorem resolveParams_go_master (w : World) (u : Str) (sa key pid : Option Str)
    (evs : List Event) (hgo : resolveParams w = Phase1.go u sa key pid evs) :
    ∃ uid1 sa1 key1 pid1 ans1 evs1 tail,
      cachePhase w w.argvUid (orT w.argvServiceAccount w.envGAC)
          (orT w.argvApiKey w.envApiKey) w.argvProjectId w.promptAnswers
        = ((uid1, sa1, key1, pid1), ans1, evs1) ∧
      pid = pid1 ∧
      (truthyS sa1 = true → sa = sa1) ∧
      (truthyS key1 = true → key = key1) ∧
      (truthyS uid1 = true → u = uid1.getD []) ∧
      evs = evs1 ++ tail ∧ tail.all lateEv = true := by
  simp only [resolveParams] at hgo
  rcases hcp : cachePhase w w.argvUid (orT w.argvServiceAccount w.envGAC)
      (orT w.argvApiKey w.envApiKey) w.argvProjectId w.promptAnswers with
    ⟨⟨uid1, sa1, key1, pid1⟩, ans1, evs1⟩
  rw [hcp] at hgo
  refine ⟨uid1, sa1, key1, pid1, ans1, evs1, ?_⟩
  by_cases h1 : truthyS uid1 = true
  · cases hau : uid1 with
    | none => rw [hau] at h1; simp [truthyS] at h1
    | some s =>
        rw [hau] at hgo h1
        have hne : s.isEmpty = false := by simpa [truthyS] using h1
        simp only [h1, if_true] at hgo
        simp only [hne, Bool.false_eq_true, if_false] at hgo
        by_cases h2 : truthyS key1 = true
        · simp only [h2, if_true] at hgo
          cases hgo
          refine ⟨(saPhase w sa1 ans1).2.2, rfl, rfl, ?_, ?_, ?_, by simp,
            saPhase_late w sa1 ans1⟩
          · intro hs; rw [saPhase_truthy w sa1 ans1 hs]
          · intro _; rfl
          · intro _; rfl
        · simp only [h2, Bool.false_eq_true, if_false] at hgo
          cases hgo
          refine ⟨Event.prompted .apiKeyQ ::
              (saPhase w sa1 (takeAns ans1).2).2.2, rfl, rfl, ?_, ?_, ?_, by simp, ?_⟩
          · intro hs; rw [saPhase_truthy w sa1 _ hs]
          · intro hk; exact absurd hk h2
          · intro _; rfl
          · simp [lateEv, saPhase_late w sa1 (takeAns ans1).2]
  · simp only [h1] at hgo
    by_cases he : (takeAns ans1).1.isEmpty = true
    · simp [he] at hgo
    · simp only [Bool.not_eq_true] at he
      simp only [he, Bool.false_eq_true, if_false] at hgo
      by_cases h2 : truthyS key1 = true
      · simp only [h2, if_true] at hgo
        cases hgo
        refine ⟨Event.prompted .uidQ ::
            (saPhase w sa1 (takeAns ans1).2).2.2, rfl, rfl, ?_, ?_, ?_, by simp, ?_⟩
        · intro hs; rw [saPhase_truthy w sa1 _ hs]
        · intro _; rfl
        · intro hu; exact absurd hu h1
        · simp [lateEv, saPhase_late w sa1 (takeAns ans1).2]
      · simp only [h2, Bool.false_eq_true, if_false] at hgo
        cases hgo
        refine ⟨Event.prompted .uidQ :: Event.prompted .apiKeyQ ::
            (saPhase w sa1 (takeAns (takeAns ans1).2).2).2.2, rfl, rfl, ?_, ?_, ?_,
            by simp, ?_⟩
        · intro hs; rw [saPhase_truthy w sa1 _ hs]
        · intro hk; exact absurd hk h2
        · intro hu; exact absurd hu h1
        · simp [lateEv, saPhase_late w sa1 (takeAns (takeAns ans1).2).2]

theorem lateEv_clean (e : Event) (h : lateEv e = true) : cleanEv e = true := by
  cases e
  case netCall => simp [lateEv] at h
  case adminInit => simp [lateEv] at h
  all_goals simp [cleanEv]

theorem lateEv_ne_load (e : Event) (h : lateEv e = true) :
    e ≠ Event.prompted PromptId.loadCache := by
  intro he
  subst he
  simp [lateEv] at h

theorem all_cleanEv_noNet (l : List Event) (h : l.all cleanEv = true) (k t : Str) :
    Event.netCall k t ∉ l := by
  intro hm
  have := List.all_eq_true.mp h _ hm
  simp [cleanEv] at this

theorem all_cleanEv_noAdmin (l : List Event) (h : l.all cleanEv = true) (c : CredKind) :
    Event.adminInit c ∉ l := by
  intro hm
  have := List.all_eq_true.mp h _ hm
  simp [cleanEv] at this

/-- A truthy flag/environment service account survives resolution. -/
theorem resolveParams_go_sa (w : World) (u : Str) (sa key pid : Option Str)
    (evs : List Event) (hs : truthyS (orT w.argvServiceAccount w.envGAC) = true)
    (hgo : resolveParams w = Phase1.go u sa key pid evs) :
    sa = orT w.argvServiceAccount w.envGAC := by
  obtain ⟨u1, s1, k1, p1, a1, e1, tl, hcp, _, hsa, _, _, _, _⟩ :=
    resolveParams_go_master w u sa key pid evs hgo
  have h1 : s1 = orT w.argvServiceAccount w.envGAC := by
    have := cachePhase_sa w w.argvUid (orT w.argvServiceAccount w.envGAC)
        (orT w.argvApiKey w.envApiKey) w.argvProjectId w.promptAnswers hs
    rw [hcp] at this
    exact this
  exact (hsa (by rw [h1]; exact hs)).trans h1

/-- A truthy flag/environment API key survives resolution. -/
theorem resolveParams_go_key (w : World) (u : Str) (sa key pid : Option Str)
    (evs : List Event) (hk : truthyS (orT w.argvApiKey w.envApiKey) = true)
    (hgo : resolveParams w = Phase1.go u sa key pid evs) :
    key = orT w.argvApiKey w.envApiKey := by
  obtain ⟨u1, s1, k1, p1, a1, e1, tl, hcp, _, _, hkey, _, _, _⟩ :=
    resolveParams_go_master w u sa key pid evs hgo
  have h1 : k1 = orT w.argvApiKey w.envApiKey := by
    have := cachePhase_key w w.argvUid (orT w.argvServiceAccount w.envGAC)
        (orT w.argvApiKey w.envApiKey) w.argvProjectId w.promptAnswers hk
    rw [hcp] at this
    exact this
  exact (hkey (by rw [h1]; exact hk)).trans h1

/-- A truthy project-id flag survives resolution. -/
theorem resolveParams_go_pid (w : World) (u : Str) (sa key pid : Option Str)
    (evs : List Event) (hp : truthyS w.argvProjectId = true)
    (hgo : resolveParams w = Phase1.go u sa key pid evs) :
    pid = w.argvProjectId := by
  obtain ⟨u1, s1, k1, p1, a1, e1, tl, hcp, hpid, _, _, _, _, _⟩ :=
    resolveParams_go_master w u sa key pid evs hgo
  have h1 : p1 = w.argvProjectId := by
    have := cachePhase_pid w w.argvUid (orT w.argvServiceAccount w.envGAC)
        (orT w.argvApiKey w.envApiKey) w.argvProjectId w.promptAnswers hp
    rw [hcp] at this
    exact this
  exact hpid.trans h1

/-- Parameter resolution emits neither the network call nor an admin-SDK
initialization. -/
theorem resolveParams_go_clean (w : World) (u : Str) (sa key pid : Option Str)
    (evs : List Event) (hgo : resolveParams w = Phase1.go u sa key pid evs) :
    evs.all cleanEv = true := by
  obtain ⟨u1, s1, k1, p1, a1, e1, tl, hcp, _, _, _, _, hevs, hlate⟩ :=
    resolveParams_go_master w u sa key pid evs hgo
  have he1 : e1.all cleanEv = true := by
    have := cachePhase_clean w w.argvUid (orT w.argvServiceAccount w.envGAC)
        (orT w.argvApiKey w.envApiKey) w.argvProjectId w.promptAnswers
    rw [hcp] at this
    exact this
  rw [hevs, List.all_append, he1]
  simp only [Bool.true_and]
  exact List.all_eq_true.mpr fun e he => lateEv_clean e (List.all_eq_true.mp hlate e he)

/-- With any flag given, resolution never offers the cache. -/
theorem resolveParams_go_noLoad (w : World) (u : Str) (sa key pid : Option Str)
    (evs : List Event) (hf : anyFlagB w = true)
    (hgo : resolveParams w = Phase1.go u sa key pid evs) :
    Event.prompted PromptId.loadCache ∉ evs := by
  obtain ⟨u1, s1, k1, p1, a1, e1, tl, hcp, _, _, _, _, hevs, hlate⟩ :=
    resolveParams_go_master w u sa key pid evs hgo
  rw [cachePhase_anyFlag w _ _ _ _ _ hf] at hcp
  cases hcp
  rw [hevs]
  intro hm
  rcases List.mem_append.mp hm with h | h
  · simp at h
  · exact lateEv_ne_load _ (List.all_eq_true.mp hlate _ h) rfl

theorem runPhase_initErr (w : World) (uid : Str) (sa key pid : Option Str)
    (evs : List Event) (m : Str) (h : (initAdmin w sa pid).1 = .error m) :
    runPhase w uid sa key pid evs =
      ⟨2, evs ++ (initAdmin w sa pid).2 ++ [Event.errInitAdmin m]⟩ := by
  simp only [runPhase, h]

theorem runPhase_mintErr (w : World) (uid : Str) (sa key pid : Option Str)
    (evs : List Event) (o : AdminOptions) (m : Str)
    (h1 : (initAdmin w sa pid).1 = .ok o) (h2 : w.mintResult = .error m) :
    runPhase w uid sa key pid evs =
      ⟨3, evs ++ (initAdmin w sa pid).2 ++ [Event.errRun m]⟩ := by
  simp only [runPhase, h1, h2]

theorem runPhase_exchErr (w : World) (uid : Str) (sa key pid : Option Str)
    (evs : List Event) (o : AdminOptions) (tok m : Str)
    (h1 : (initAdmin w sa pid).1 = .ok o) (h2 : w.mintResult = .ok tok)
    (h3 : (exchangeFn w tok key).1 = .error m) :
    runPhase w uid sa key pid evs =
      ⟨3, evs ++ (initAdmin w sa pid).2 ++
          Event.logCustomToken tok :: (exchangeFn w tok key).2 ++ [Event.errRun m]⟩ := by
  simp only [runPhase, h1, h2, h3]

/-- A truthy explicit path naming a missing file makes `initAdmin` throw
the not-found error right after the existence probe. -/
theorem initAdmin_notFound (w : World) (p pid : Option Str) (hp : truthyS p = true)
    (hex : w.pathExists (resolvePath w.cwd (p.getD [])) = false) :
    initAdmin w p pid = (.error (notFoundMsg (resolvePath w.cwd (p.getD []))),
      [Event.fsExistsCheck (resolvePath w.cwd (p.getD []))]) := by
  simp [initAdmin, hp, hex]

/-- With a truthy path, `initAdmin` always probes that path's existence
and never initializes with the default-credential mechanism. -/
theorem initAdmin_truthy_events (w : World) (p pid : Option Str) (hp : truthyS p = true) :
    Event.fsExistsCheck (resolvePath w.cwd (p.getD [])) ∈ (initAdmin w p pid).2 ∧
      Event.adminInit CredKind.applicationDefault ∉ (initAdmin w p pid).2 := by
  by_cases hex : w.pathExists (resolvePath w.cwd (p.getD [])) = true
  · cases hsa : w.saFileAt (resolvePath w.cwd (p.getD [])) <;>
      simp [initAdmin, hp, hex, hsa]
  · simp only [Bool.not_eq_true] at hex
    simp [initAdmin, hp, hex]

theorem initAdmin_noNet (w : World) (p pid : Option Str) (k t : Str) :
    Event.netCall k t ∉ (initAdmin w p pid).2 := by
  by_cases hp : truthyS p = true
  · by_cases hex : w.pathExists (resolvePath w.cwd (p.getD [])) = true
    · cases hsa : w.saFileAt (resolvePath w.cwd (p.getD [])) <;>
        simp [initAdmin, hp, hex, hsa]
    · simp only [Bool.not_eq_true] at hex
      simp [initAdmin, hp, hex]
  · simp only [Bool.not_eq_true] at hp
    by_cases hg : truthyS w.envGAC = true
    · simp [initAdmin, hp, hg]
    · simp only [Bool.not_eq_true] at hg
      cases hfd : w.firebaseDir with
      | none => simp [initAdmin, hp, hg, hfd]
      | some names =>
          have hclean := pickLoop_clean w (fbDir w) (names.filter jsonSuffix)
          have hnn := all_cleanEv_noNet _ hclean k t
          cases hr : (pickLoop w (fbDir w) (names.filter jsonSuffix)).1 with
          | none =>
              simp [initAdmin, hp, hg, hfd, hr]
              intro hm
              exact hnn hm
          | some full =>
              cases hsa : w.saFileAt full <;>
                simp [initAdmin, hp, hg, hfd, hr, hsa] <;>
                intro hm <;> exact hnn hm

/-- The candidate loop returns the first `.json`-named entry satisfying
the service-account heuristic — `List.find?` over the filtered listing. -/
theorem pickLoop_eq_find (w : World) (dir : Str) : ∀ l : List Str,
    (pickLoop w dir l).1 =
      (l.find? (fun nm => saOk (w.saFileAt (pathJoin dir nm)))).map (pathJoin dir) := by
  intro l
  induction l with
  | nil => simp [pickLoop]
  | cons nm rest ih =>
      by_cases h : saOk (w.saFileAt (pathJoin dir nm)) = true
      · simp [pickLoop, h, List.find?_cons_of_pos _ h]
      · simp [pickLoop, h, List.find?_cons_of_neg _ h, ih]

theorem runPhase_ok (w : World) (uid : Str) (sa key pid : Option Str)
    (evs : List Event) (o : AdminOptions) (tok : Str) (data : Json)
    (h1 : (initAdmin w sa pid).1 = .ok o) (h2 : w.mintResult = .ok tok)
    (h3 : (exchangeFn w tok key).1 = .ok data) :
    runPhase w uid sa key pid evs =
      ⟨0, evs ++ (initAdmin w sa pid).2 ++
          Event.logCustomToken tok :: (exchangeFn w tok key).2 ++
          [Event.logExchangeResult (jStringify data),
           Event.cacheWrite (writeCache
             ⟨some uid, sa, key, orT pid w.envProjectId, some w.now,
              none, none, none⟩)]⟩ := by
  simp only [runPhase, h1, h2, h3]

theorem exchangeFn_shape (w : World) (tok : Str) (key : Option Str) :
    (exchangeFn w tok key).2 = [] ∨
      (exchangeFn w tok key).2 = [Event.netCall (key.getD []) tok] := by
  by_cases hk : truthyS key = true
  · right
    by_cases hn : w.netOk = true <;> simp [exchangeFn, hk, hn]
  · left
    simp only [Bool.not_eq_true] at hk
    simp [exchangeFn, hk]

/-- In every branch the run's tail events are the parameter-resolution
trace, then `initAdmin`'s trace, then events that never include an
admin-SDK initialization. -/
theorem runPhase_events_shape (w : World) (uid : Str) (sa key pid : Option Str)
    (evs : List Event) :
    ∃ tail, (runPhase w uid sa key pid evs).events = evs ++ (initAdmin w sa pid).2 ++ tail ∧
      ∀ c, Event.adminInit c ∉ tail := by
  cases h1 : (initAdmin w sa pid).1 with
  | error m =>
      rw [runPhase_initErr w uid sa key pid evs m h1]
      exact ⟨[Event.errInitAdmin m], rfl, by simp⟩
  | ok o =>
      cases h2 : w.mintResult with
      | error m =>
          rw [runPhase_mintErr w uid sa key pid evs o m h1 h2]
          exact ⟨[Event.errRun m], rfl, by simp⟩
      | ok tok =>
          have hxs := exchangeFn_shape w tok key
          cases h3 : (exchangeFn w tok key).1 with
          | error m =>
              rw [runPhase_exchErr w uid sa key pid evs o tok m h1 h2 h3]
              refine ⟨Event.logCustomToken tok ::
                  ((exchangeFn w tok key).2 ++ [Event.errRun m]),
                by simp, ?_⟩
              intro c hm
              rcases hxs with hx | hx <;> rw [hx] at hm <;> simp at hm
          | ok data =>
              rw [runPhase_ok w uid sa key pid evs o tok data h1 h2 h3]
              refine ⟨Event.logCustomToken tok ::
                  ((exchangeFn w tok key).2 ++
                    [Event.logExchangeResult (jStringify data),
                     Event.cacheWrite (writeCache
                       ⟨some uid, sa, key, orT pid w.envProjectId, some w.now,
                        none, none, none⟩)]),
                by simp, ?_⟩
              intro c hm
              rcases hxs with hx | hx <;> rw [hx] at hm <;> simp at hm

theorem exchangeFn_noKey (w : World) (tok : Str) (key : Option Str)
    (h : truthyS key = false) : exchangeFn w tok key = (.error needKeyMsg, []) := by
  simp [exchangeFn, h]

theorem exchangeFn_fail (w : World) (tok : Str) (key : Option Str)
    (h1 : truthyS key = true) (h2 : w.netOk = false) :
    exchangeFn w tok key = (.error (exchangeFailMsg (extractErrMsg w.netBody)),
      [Event.netCall (key.getD []) tok]) := by
  simp [exchangeFn, h1, h2]

end ProgramLemmas

section Claims

/-- C1 (counterexample): the claim asserts that the signed custom token
is absent from the read-back object regardless of whether it was present
in the object passed to the cache write.  It is not: `writeCache`
deletes only the `idToken` and `refreshToken` keys (src/index.js lines
73-74), so an input carrying a `customToken` field survives the round
trip with that field intact and present. -/
theorem c1_cex_customTokenSurvives :
    readCache (some (writeCache cexC1)) = some cexC1 ∧
      cexC1.customToken = some ("ct1".toList) :=
  ⟨readCache_encodeSafe (stripTokens cexC1), rfl⟩

/-- C1 (amended): writing any object to the cache and reading it back
reproduces every field except the identity-token and refresh-token
fields, which are absent regardless of whether they were present; the
custom-token field is not stripped by the write operation and is
reproduced like any other field. -/
theorem c1_cacheRoundTrip (o : CacheObj) :
    readCache (some (writeCache o)) = some (stripTokens o) ∧
      (stripTokens o).uid = o.uid ∧
      (stripTokens o).serviceAccount = o.serviceAccount ∧
      (stripTokens o).apiKey = o.apiKey ∧
      (stripTokens o).projectId = o.projectId ∧
      (stripTokens o).timestamp = o.timestamp ∧
      (stripTokens o).customToken = o.customToken ∧
      (stripTokens o).idToken = none ∧
      (stripTokens o).refreshToken = none :=
  ⟨readCache_encodeSafe (stripTokens o), rfl, rfl, rfl, rfl, rfl, rfl, rfl, rfl⟩

/-- C7: the cache read never throws — it is a total function into
`Option` — and yields the absent value on a missing file, on content
that trims to nothing, and on content that fails to decode. -/
theorem c7_readCache_absentOnBad (file : Option Str)
    (h : file = none ∨ (∃ raw, file = some raw ∧ trimWs raw = []) ∨
         (∃ raw, file = some raw ∧ decodeSafe (trimWs raw) = none)) :
    readCache file = none := by
  rcases h with h | ⟨raw, hf, ht⟩ | ⟨raw, hf, hd⟩
  · rw [h]; rfl
  · subst hf
    simp [readCache, ht]
  · subst hf
    by_cases he : (trimWs raw).isEmpty = true
    · simp [readCache, he]
    · simp [readCache, he, hd]

theorem c7_witness : readCache (some ("!!!".toList)) = none :=
  c7_readCache_absentOnBad _ (Or.inr (Or.inr ⟨_, rfl, by decide⟩))

/-- C10: content consisting only of whitespace is trimmed to nothing
before the emptiness check, so it reads back as an absent cache exactly
like a missing or empty file. -/
theorem c10_whitespaceCache_absent (raw : Str) (h : ∀ c ∈ raw, isWsChar c = true) :
    readCache (some raw) = none := by
  have h1 : raw.dropWhile isWsChar = [] := List.dropWhile_eq_nil_iff.mpr h
  have ht : trimWs raw = [] := by simp [trimWs, h1]
  simp [readCache, ht]

theorem c10_witness : readCache (some ("  \n ".toList)) = none :=
  c10_whitespaceCache_absent _ (by decide)

/-- C4: invoked with an absent (missing or empty) API key, the exchange
throws the need-key error with an empty effect trace — no network call
is recorded, so the failure precedes any request. -/
theorem c4_noApiKey_noNetwork (w : World) (tok : Str) (key : Option Str)
    (h : truthyS key = false) :
    (exchangeFn w tok key).1 = .error needKeyMsg ∧ (exchangeFn w tok key).2 = [] := by
  rw [exchangeFn_noKey w tok key h]
  exact ⟨rfl, rfl⟩

theorem c4_witness :
    ((exchangeFn wC4 ("tok1".toList) (some [])).1 = .error needKeyMsg ∧
        (exchangeFn wC4 ("tok1".toList) (some [])).2 = []) ∧
      ((exchangeFn wC4 ("tok1".toList) none).1 = .error needKeyMsg ∧
        (exchangeFn wC4 ("tok1".toList) none).2 = []) :=
  ⟨c4_noApiKey_noNetwork wC4 _ (some []) (by decide),
   c4_noApiKey_noNetwork wC4 _ none (by decide)⟩

/-- C5: over a `.firebase` listing, the scan considers exactly the
`.json`-suffixed names in listing order and picks the first whose parsed
content has truthy email and key fields (`List.find?` semantics — parse
failures and files lacking either field are skipped because `saOk` is
false for them); when no candidate matches and neither an explicit path
nor the environment variable is available, the credential resolver
throws the no-service-account-found error. -/
theorem c5_autoDetect_firstMatch (w : World) (names : List Str) (p pid : Option Str)
    (hfd : w.firebaseDir = some names) (hp : truthyS p = false)
    (hg : truthyS w.envGAC = false) :
    (pickLoop w (fbDir w) (names.filter jsonSuffix)).1 =
        ((names.filter jsonSuffix).find?
            (fun nm => saOk (w.saFileAt (pathJoin (fbDir w) nm)))).map
          (pathJoin (fbDir w)) ∧
      (((names.filter jsonSuffix).find?
          (fun nm => saOk (w.saFileAt (pathJoin (fbDir w) nm)))) = none →
        (initAdmin w p pid).1 = .error noSAFoundMsg) := by
  refine ⟨pickLoop_eq_find w (fbDir w) (names.filter jsonSuffix), ?_⟩
  intro hnone
  have hpick : (pickLoop w (fbDir w) (names.filter jsonSuffix)).1 = none := by
    rw [pickLoop_eq_find w (fbDir w) (names.filter jsonSuffix), hnone]
    rfl
  simp [initAdmin, hp, hg, hfd, hpick]

theorem c5_witness :
    ((pickLoop wC5 (fbDir wC5) (c5names.filter jsonSuffix)).1 =
        ((c5names.filter jsonSuffix).find?
            (fun nm => saOk (wC5.saFileAt (pathJoin (fbDir wC5) nm)))).map
          (pathJoin (fbDir wC5))) ∧
      (pickLoop wC5 (fbDir wC5) (c5names.filter jsonSuffix)).1 =
        some ("/work/.firebase/pick.json".toList) :=
  ⟨(c5_autoDetect_firstMatch wC5 c5names none none rfl (by decide) (by decide)).1,
   by decide⟩

/-- C6 (counterexample): a run invoked with an explicit `--serviceAccount`
path that does not exist can still exit with code 1, not 2 — when no
identifier is available (no `--uid`, empty answer to the prompt) the run
aborts before credential resolution ever looks at the path. -/
theorem c6_cex_uidlessRunExitsOne :
    truthyS wC6.argvServiceAccount = true ∧
      (∀ q, wC6.pathExists q = false) ∧
      (mainRun wC6).exit = 1 ∧ (mainRun wC6).exit ≠ 2 := by
  refine ⟨by decide, fun q => rfl, rfl, by decide⟩

/-- C6 (amended): every run with a truthy `--serviceAccount` flag naming
a missing file, provided parameter resolution completes (an identifier
was available — otherwise the run exits 1 first), fails with exit code
2, reports the initialization error naming the resolved missing path,
and records no network call. -/
theorem c6_missingServiceAccount (w : World) (u : Str) (sa key pid : Option Str)
    (evs : List Event)
    (hsflag : truthyS w.argvServiceAccount = true)
    (hmiss : w.pathExists (resolvePath w.cwd (w.argvServiceAccount.getD [])) = false)
    (hgo : resolveParams w = Phase1.go u sa key pid evs) :
    (mainRun w).exit = 2 ∧
      Event.errInitAdmin
          (notFoundMsg (resolvePath w.cwd (w.argvServiceAccount.getD []))) ∈
        (mainRun w).events ∧
      ∀ k2 t, Event.netCall k2 t ∉ (mainRun w).events := by
  have hsa : sa = w.argvServiceAccount := by
    have h := resolveParams_go_sa w u sa key pid evs
        (by rw [truthyS_orT, hsflag]; rfl) hgo
    rw [orT_truthy hsflag] at h
    exact h
  have hia : initAdmin w sa pid =
      (.error (notFoundMsg (resolvePath w.cwd (w.argvServiceAccount.getD []))),
       [Event.fsExistsCheck (resolvePath w.cwd (w.argvServiceAccount.getD []))]) := by
    rw [hsa]
    exact initAdmin_notFound w _ pid hsflag hmiss
  have hrun : mainRun w = runPhase w u sa key pid evs := by
    simp [mainRun, hgo]
  have hout := runPhase_initErr w u sa key pid evs _ (by rw [hia])
  rw [hrun, hout, hia]
  refine ⟨rfl, by simp, ?_⟩
  intro k2 t hm
  have hclean := resolveParams_go_clean w u sa key pid evs hgo
  rcases List.mem_append.mp hm with hm1 | hm2
  · rcases List.mem_append.mp hm1 with hm3 | hm4
    · exact all_cleanEv_noNet evs hclean k2 t hm3
    · simp at hm4
  · simp at hm2

theorem c6_witness :
    (mainRun wC6b).exit = 2 ∧
      Event.errInitAdmin
          (notFoundMsg (resolvePath wC6b.cwd (wC6b.argvServiceAccount.getD []))) ∈
        (mainRun wC6b).events ∧
      ∀ k2 t, Event.netCall k2 t ∉ (mainRun wC6b).events :=
  c6_missingServiceAccount wC6b ("u1".toList) (some ("./missing.json".toList))
    (some ("key1".toList)) none [] (by decide) (by decide) rfl

/-- C8: flags and environment values take precedence over cached values
(a truthy flag/environment parameter is exactly what resolution
returns), and with any flag present the cache step passes every
parameter through untouched and the cache-offer prompt never appears in
the trace. -/
theorem c8_precedence (w : World) (u : Str) (sa key pid : Option Str)
    (evs : List Event) (hgo : resolveParams w = Phase1.go u sa key pid evs) :
    (truthyS w.argvUid = true → u = w.argvUid.getD []) ∧
      (truthyS (orT w.argvServiceAccount w.envGAC) = true →
        sa = orT w.argvServiceAccount w.envGAC) ∧
      (truthyS (orT w.argvApiKey w.envApiKey) = true →
        key = orT w.argvApiKey w.envApiKey) ∧
      (truthyS w.argvProjectId = true → pid = w.argvProjectId) ∧
      (anyFlagB w = true →
        (∀ u0 s0 k0 p0 a, cachePhase w u0 s0 k0 p0 a = ((u0, s0, k0, p0), a, [])) ∧
        Event.prompted PromptId.loadCache ∉ evs) :=
  ⟨fun h => resolveParams_go_uid w u sa key pid evs h hgo,
   fun h => resolveParams_go_sa w u sa key pid evs h hgo,
   fun h => resolveParams_go_key w u sa key pid evs h hgo,
   fun h => resolveParams_go_pid w u sa key pid evs h hgo,
   fun hf => ⟨fun u0 s0 k0 p0 a => cachePhase_anyFlag w u0 s0 k0 p0 a hf,
     resolveParams_go_noLoad w u sa key pid evs hf hgo⟩⟩

theorem c8_witness :
    "u1".toList = wC8.argvUid.getD [] ∧
      some ("/sa/acct.json".toList) = orT wC8.argvServiceAccount wC8.envGAC ∧
      Event.prompted PromptId.loadCache ∉ ([] : List Event) := by
  have h := c8_precedence wC8 ("u1".toList) (some ("/sa/acct.json".toList))
      (some ("key1".toList)) none [] rfl
  exact ⟨h.1 (by decide), h.2.1 (by decide), (h.2.2.2.2 (by decide)).2⟩

/-- C9: whenever the run reaches minting, minting succeeds and the
exchange then fails, the process exits 3 and the trace shows the freshly
minted custom token printed strictly before the fatal error line — no
all-or-nothing output policy. -/
theorem c9_tokenPrintedBeforeFatalError (w : World) (u : Str) (sa key pid : Option Str)
    (evs : List Event) (o : AdminOptions) (tok m : Str)
    (hgo : resolveParams w = Phase1.go u sa key pid evs)
    (hia : (initAdmin w sa pid).1 = .ok o)
    (hmint : w.mintResult = .ok tok)
    (hx : (exchangeFn w tok key).1 = .error m) :
    (mainRun w).exit = 3 ∧
      ∃ pre mid, (mainRun w).events =
        pre ++ Event.logCustomToken tok :: (mid ++ [Event.errRun m]) := by
  have hrun : mainRun w = runPhase w u sa key pid evs := by
    simp [mainRun, hgo]
  rw [hrun, runPhase_exchErr w u sa key pid evs o tok m hia hmint hx]
  refine ⟨rfl, evs ++ (initAdmin w sa pid).2, (exchangeFn w tok key).2, ?_⟩
  simp

theorem c9_witness :
    (mainRun wC9).exit = 3 ∧
      ∃ pre mid, (mainRun wC9).events =
        pre ++ Event.logCustomToken ("tok1".toList) ::
          (mid ++ [Event.errRun (exchangeFailMsg (jStringify (Json.str ("boom".toList))))]) :=
  c9_tokenPrintedBeforeFatalError wC9 ("u1".toList) (some ("/sa/acct.json".toList))
    (some ("key1".toList)) none [] ⟨.cert ("/sa/acct.json".toList), none⟩
    ("tok1".toList) _ rfl rfl rfl rfl

/-- C2 (counterexample): with the endpoint answering non-ok with body
`{"error":{"message":"INVALID_CUSTOM_TOKEN"}}`, the process exits 3, but
the error message reported on the console is the prefixed
`Failed to exchange custom token: INVALID_CUSTOM_TOKEN`
(src/index.js line 173), which is not exactly `INVALID_CUSTOM_TOKEN`;
no line reports the bare nested message. -/
theorem c2_cex_reportedMessageIsPrefixed :
    (mainRun wC2).exit = 3 ∧
      Event.errRun (exchangeFailMsg ("INVALID_CUSTOM_TOKEN".toList)) ∈ (mainRun wC2).events ∧
      Event.errRun ("INVALID_CUSTOM_TOKEN".toList) ∉ (mainRun wC2).events ∧
      exchangeFailMsg ("INVALID_CUSTOM_TOKEN".toList) ≠ "INVALID_CUSTOM_TOKEN".toList := by
  decide

/-- C2 (amended): in every run reaching the exchange with the endpoint
answering non-ok with body `{"error":{"message":"INVALID_CUSTOM_TOKEN"}}`,
the nested message extracted from the body is exactly
`INVALID_CUSTOM_TOKEN`, the process exits with code 3, and the reported
error line carries the fixed exchange-failure prefix followed by that
extracted message. -/
theorem c2_invalidTokenExchange (w : World) (u : Str) (sa key pid : Option Str)
    (evs : List Event) (o : AdminOptions) (tok : Str)
    (hgo : resolveParams w = Phase1.go u sa key pid evs)
    (hia : (initAdmin w sa pid).1 = .ok o)
    (hmint : w.mintResult = .ok tok)
    (hkey : truthyS key = true)
    (hnok : w.netOk = false)
    (hbody : w.netBody = invBody) :
    extractErrMsg w.netBody = "INVALID_CUSTOM_TOKEN".toList ∧
      (mainRun w).exit = 3 ∧
      Event.errRun (exchangeFailMsg ("INVALID_CUSTOM_TOKEN".toList)) ∈
        (mainRun w).events := by
  have hmsg : extractErrMsg w.netBody = "INVALID_CUSTOM_TOKEN".toList := by
    rw [hbody]
    decide
  have hxpair := exchangeFn_fail w tok key hkey hnok
  have hx : (exchangeFn w tok key).1 =
      .error (exchangeFailMsg ("INVALID_CUSTOM_TOKEN".toList)) := by
    rw [hxpair, hmsg]
  have hrun : mainRun w = runPhase w u sa key pid evs := by
    simp [mainRun, hgo]
  rw [hrun, runPhase_exchErr w u sa key pid evs o tok _ hia hmint hx]
  exact ⟨hmsg, rfl, by simp⟩

theorem c2_witness :
    extractErrMsg wC2.netBody = "INVALID_CUSTOM_TOKEN".toList ∧
      (mainRun wC2).exit = 3 ∧
      Event.errRun (exchangeFailMsg ("INVALID_CUSTOM_TOKEN".toList)) ∈
        (mainRun wC2).events :=
  c2_invalidTokenExchange wC2 ("u1".toList) (some ("/sa/acct.json".toList))
    (some ("key1".toList)) none [] ⟨.cert ("/sa/acct.json".toList), none⟩
    ("tok1".toList) rfl rfl rfl (by decide) rfl rfl

/-- C3 (counterexample): a concrete run with no `--serviceAccount` flag
but `GOOGLE_APPLICATION_CREDENTIALS` set: the trace records an existence
probe and a read of that very credential file, and the admin SDK is
initialized with a certificate credential, never with the
default-credential mechanism — refuting the claim that the credential
file undergoes no local inspection. -/
theorem c3_cex_envFileIsProbed :
    truthyS wC3.argvServiceAccount = false ∧
      wC3.envGAC = some ("/env/cred.json".toList) ∧
      Event.fsExistsCheck ("/env/cred.json".toList) ∈ (mainRun wC3).events ∧
      Event.fsRead ("/env/cred.json".toList) ∈ (mainRun wC3).events ∧
      Event.adminInit (CredKind.cert ("/env/cred.json".toList)) ∈ (mainRun wC3).events ∧
      Event.adminInit CredKind.applicationDefault ∉ (mainRun wC3).events := by
  decide

/-- C3 (amended): in every run with no truthy `--serviceAccount` flag
but a truthy credential environment variable, `main` merges the
environment path into the explicit-path parameter (src/index.js line
181), so `initAdmin` takes its explicit-path branch on it: the resolved
path's existence is probed and the default-credential mechanism is never
used. -/
theorem c3_envPath_locallyInspected (w : World) (u : Str) (sa key pid : Option Str)
    (evs : List Event)
    (hflag : truthyS w.argvServiceAccount = false)
    (henv : truthyS w.envGAC = true)
    (hgo : resolveParams w = Phase1.go u sa key pid evs) :
    sa = w.envGAC ∧
      Event.fsExistsCheck (resolvePath w.cwd (w.envGAC.getD [])) ∈ (mainRun w).events ∧
      Event.adminInit CredKind.applicationDefault ∉ (mainRun w).events := by
  have hor : orT w.argvServiceAccount w.envGAC = w.envGAC := orT_falsy hflag
  have hsa : sa = w.envGAC := by
    have h := resolveParams_go_sa w u sa key pid evs
        (by rw [truthyS_orT, hflag]; simpa using henv) hgo
    rwa [hor] at h
  have hrun : mainRun w = runPhase w u sa key pid evs := by
    simp [mainRun, hgo]
  obtain ⟨tail, hsh, hnoadm⟩ := runPhase_events_shape w u sa key pid evs
  have hie := initAdmin_truthy_events w sa pid (by rw [hsa]; exact henv)
  refine ⟨hsa, ?_, ?_⟩
  · rw [hrun, hsh, ← hsa]
    exact List.mem_append.mpr (Or.inl (List.mem_append.mpr (Or.inr hie.1)))
  · rw [hrun, hsh]
    intro hm
    rcases List.mem_append.mp hm with hm1 | hm2
    · rcases List.mem_append.mp hm1 with hm3 | hm4
      · exact all_cleanEv_noAdmin evs
          (resolveParams_go_clean w u sa key pid evs hgo) _ hm3
      · exact hie.2 hm4
    · exact hnoadm _ hm2

theorem c3_witness :
    some ("/env/cred.json".toList) = wC3.envGAC ∧
      Event.fsExistsCheck (resolvePath wC3.cwd (wC3.envGAC.getD [])) ∈ (mainRun wC3).events ∧
      Event.adminInit CredKind.applicationDefault ∉ (mainRun wC3).events := by
  have h := c3_envPath_locallyInspected wC3 ("u1".toList) (some ("/env/cred.json".toList))
      (some ("key1".toList)) none [] (by decide) (by decide) rfl
  exact ⟨h.1.symm, h.2.1, h.2.2⟩

end Claims

end FirebaseTokenHelper
